import Mathlib

/-!
Verification of the audio ingestion / spectral-analysis pipeline of
`samples/samples_demoHelper/11_jack_audio/window.c`.

The C file keeps a rolling window `_samples` of `ECHANTILLONS` (4096) audio
samples, fed by the jack process callback `mixCallback`, computes a forward
DFT of the window through fftw, and stores `FREQUENCES` (= `ECHANTILLONS >> 2`)
scaled magnitudes in the `Sint16` array `_hauteurs`.  The definitions below
are a shallow embedding of that code: the fixed arrays become lists, the
float arithmetic becomes exact real arithmetic, and the fftw forward
transform is the textbook unnormalised DFT `out[k] = Σ_n in[n]·e^{-2πikn/N}`
that fftw documents for `FFTW_FORWARD`.
-/

/-- `#define ECHANTILLONS 4096` (window.c line 31). -/
def ECHANTILLONS : ℕ := 4096

/-- `#define FREQUENCES (ECHANTILLONS >> 2)` (window.c line 33). -/
def FREQUENCES : ℕ := ECHANTILLONS >>> 2

/-- `FREQUENCES` evaluates to 1024. -/
lemma FREQUENCES_eq : FREQUENCES = 1024 := by decide

/-- The sample-window update performed at the start of `mixCallback`
(window.c lines 155-168) on the fixed array `_samples`, as a function on
lists.  The element type is kept abstract because the code only moves
samples around.

```
if(nframes > ECHANTILLONS) {
  for(int i = 0; i < ECHANTILLONS; ++i) _samples[i] = buffer[i];
} else {
  for(int i = nframes; i < ECHANTILLONS; ++i) _samples[i - nframes] = _samples[i];
  int end = ECHANTILLONS - nframes;
  for(int i = 0; i < nframes; ++i) _samples[i + end] = buffer[i];
}
```

In the first branch the loop copies `buffer[0..ECHANTILLONS)`, i.e. the
first `ECHANTILLONS` incoming frames.  In the second branch the first loop
shifts `_samples` left by `nframes` (every read `_samples[i]` happens before
index `i` is overwritten, because writes land at `i - nframes < i` in an
ascending loop), leaving `_samples[j] = old[j + nframes]` for
`j < ECHANTILLONS - nframes`, and the second loop writes the `nframes` new
frames at the tail. -/
def ingest {α : Type*} (samples buffer : List α) : List α :=
  if buffer.length > ECHANTILLONS then
    buffer.take ECHANTILLONS
  else
    samples.drop buffer.length ++ buffer

/-- Claim C9: ingesting an empty block (`nframes = 0`) leaves the sample
buffer unchanged, for every buffer state. -/
theorem ingest_nil_noop {α : Type*} (samples : List α) :
    ingest samples ([] : List α) = samples := by
  simp [ingest, ECHANTILLONS]

/-- Claim C2: for a block of `M < ECHANTILLONS` new frames and a buffer of
`ECHANTILLONS` samples, the ingested buffer is the old elements `[M..N)`
followed by the whole new block, and it still has `ECHANTILLONS` elements. -/
theorem ingest_small_block {α : Type*} (samples buffer : List α)
    (hs : samples.length = ECHANTILLONS) (h : buffer.length < ECHANTILLONS) :
    ingest samples buffer = samples.drop buffer.length ++ buffer ∧
      (ingest samples buffer).length = ECHANTILLONS := by
  have hnot : ¬ buffer.length > ECHANTILLONS := by omega
  refine ⟨by simp [ingest, hnot], ?_⟩
  simp only [ingest, hnot, if_false, List.length_append, List.length_drop, hs]
  omega

/-- Closed instance of `ingest_small_block` with a 4096-sample buffer and a
3-frame block. -/
theorem ingest_small_block_witness :
    (List.replicate ECHANTILLONS (0 : ℕ)).length = ECHANTILLONS ∧
      ([1, 2, 3] : List ℕ).length < ECHANTILLONS ∧
      (ingest (List.replicate ECHANTILLONS (0 : ℕ)) [1, 2, 3] =
          (List.replicate ECHANTILLONS (0 : ℕ)).drop ([1, 2, 3] : List ℕ).length ++ [1, 2, 3] ∧
        (ingest (List.replicate ECHANTILLONS (0 : ℕ)) [1, 2, 3]).length = ECHANTILLONS) :=
  ⟨by simp, by simp [ECHANTILLONS], ingest_small_block _ _ (by simp) (by simp [ECHANTILLONS])⟩

/-- Claim C6: whatever the size of the incoming block, ingestion leaves the
buffer with exactly `ECHANTILLONS` elements. -/
theorem ingest_length {α : Type*} (samples buffer : List α)
    (hs : samples.length = ECHANTILLONS) :
    (ingest samples buffer).length = ECHANTILLONS := by
  unfold ingest
  by_cases h : buffer.length > ECHANTILLONS
  · rw [if_pos h, List.length_take]
    omega
  · rw [if_neg h, List.length_append, List.length_drop, hs]
    omega

/-- Closed instance of `ingest_length` on a block larger than the window. -/
theorem ingest_length_witness :
    (List.replicate ECHANTILLONS (0 : ℕ)).length = ECHANTILLONS ∧
      (ingest (List.replicate ECHANTILLONS (0 : ℕ))
        (List.replicate (ECHANTILLONS + 9) 1)).length = ECHANTILLONS :=
  ⟨by simp, ingest_length _ _ (by simp)⟩

/-- Claim C1, counterexample: for a block of `ECHANTILLONS + 1` frames the
code keeps the FIRST `ECHANTILLONS` frames (the loop copies
`buffer[0..ECHANTILLONS)`), not the last `ECHANTILLONS` as claimed.  With the
block `7 :: 0,…,0` the result starts with `7` while the last 4096 elements of
the block are all `0`. -/
theorem ingest_large_block_counterexample :
    ¬ ingest (List.replicate ECHANTILLONS (0 : ℕ)) (7 :: List.replicate ECHANTILLONS 0) =
      (7 :: List.replicate ECHANTILLONS (0 : ℕ)).drop
        ((7 :: List.replicate ECHANTILLONS (0 : ℕ)).length - ECHANTILLONS) := by
  intro hEq
  have hgt : (7 :: List.replicate ECHANTILLONS (0 : ℕ)).length > ECHANTILLONS := by
    rw [List.length_cons, List.length_replicate]
    omega
  have hL : ingest (List.replicate ECHANTILLONS (0 : ℕ)) (7 :: List.replicate ECHANTILLONS 0) =
      (7 :: List.replicate ECHANTILLONS (0 : ℕ)).take ECHANTILLONS := by
    rw [ingest, if_pos hgt]
  have hR : (7 :: List.replicate ECHANTILLONS (0 : ℕ)).drop
      ((7 :: List.replicate ECHANTILLONS (0 : ℕ)).length - ECHANTILLONS) =
      List.replicate ECHANTILLONS (0 : ℕ) := by
    rw [List.length_cons, List.length_replicate]
    have h1 : ECHANTILLONS + 1 - ECHANTILLONS = 1 := by omega
    rw [h1, List.drop_one, List.tail_cons]
  rw [hL, hR] at hEq
  have hhead := congrArg List.head? hEq
  have hE : ECHANTILLONS = 4095 + 1 := by norm_num [ECHANTILLONS]
  rw [hE, List.take_succ_cons, List.head?_cons, List.head?_replicate] at hhead
  simp at hhead

/-- Claim C1, amended: for a block of at least `ECHANTILLONS` frames the
ingested buffer is the FIRST `ECHANTILLONS` frames of the block, in order
(the excess beyond `ECHANTILLONS` is dropped from the end of the block). -/
theorem ingest_large_block_keeps_first {α : Type*} (samples buffer : List α)
    (hs : samples.length = ECHANTILLONS) (h : ECHANTILLONS ≤ buffer.length) :
    ingest samples buffer = buffer.take ECHANTILLONS := by
  unfold ingest
  by_cases hgt : buffer.length > ECHANTILLONS
  · rw [if_pos hgt]
  · have heq : buffer.length = ECHANTILLONS := by omega
    rw [if_neg hgt, heq, ← hs, List.drop_length, List.nil_append,
      List.take_of_length_le (by omega)]

/-- Closed instance of `ingest_large_block_keeps_first` at a block of
exactly `ECHANTILLONS` frames. -/
theorem ingest_large_block_keeps_first_witness :
    (List.replicate ECHANTILLONS (0 : ℕ)).length = ECHANTILLONS ∧
      ECHANTILLONS ≤ (List.replicate ECHANTILLONS (1 : ℕ)).length ∧
      ingest (List.replicate ECHANTILLONS (0 : ℕ)) (List.replicate ECHANTILLONS 1) =
        (List.replicate ECHANTILLONS (1 : ℕ)).take ECHANTILLONS :=
  ⟨by simp, by simp, ingest_large_block_keeps_first _ _ (by simp) (by simp)⟩

/-- Truncation toward zero performed by the C cast `(int)` applied to a
non-`int` `double` value (window.c line 178).  On the values this program
produces the double fits in an `int`, so no 32-bit reduction is modelled. -/
noncomputable def truncToInt (x : ℝ) : ℤ := if 0 ≤ x then ⌊x⌋ else ⌈x⌉

/-- Two's-complement narrowing performed by storing an `int` into the
`Sint16` array `_hauteurs` (window.c lines 37 and 178). -/
def toSint16 (z : ℤ) : ℤ := (z + 32768) % 65536 - 32768

/-- The forward transform computed by `fftw_execute(_plan4fftw)` for the plan
built with `fftw_plan_dft_1d(ECHANTILLONS, _in4fftw, _out4fftw, FFTW_FORWARD,
FFTW_ESTIMATE)` (window.c line 83): the unnormalised discrete Fourier
transform `out[k] = Σ_n in[n]·e^{-2πikn/ECHANTILLONS}` that the fftw manual
specifies for `FFTW_FORWARD`. -/
noncomputable def dft (x : Fin ECHANTILLONS → ℂ) (k : ℕ) : ℂ :=
  ∑ n : Fin ECHANTILLONS,
    x n * Complex.exp (((-2 * Real.pi * k * n / ECHANTILLONS : ℝ) : ℂ) * Complex.I)

/-- The staging of `_samples` into `_in4fftw` (window.c lines 172-173):
`_in4fftw[i][0] = _samples[i]`.  The imaginary parts are zeroed once by the
`memset` in `init` (line 79) and never written afterwards, so they are
always `0`. -/
noncomputable def toComplexInput (samples : List ℝ) : Fin ECHANTILLONS → ℂ :=
  fun n => ((samples.getD n 0 : ℝ) : ℂ)

/-- The real value computed for band `i` in window.c line 178:
`sqrt(out[i][0]*out[i][0] + out[i][1]*out[i][1]) * exp(2.0 * i / (double)FREQUENCES)`. -/
noncomputable def binValue (samples : List ℝ) (i : ℕ) : ℝ :=
  Real.sqrt ((dft (toComplexInput samples) i).re * (dft (toComplexInput samples) i).re
      + (dft (toComplexInput samples) i).im * (dft (toComplexInput samples) i).im)
    * Real.exp (2 * i / (FREQUENCES : ℝ))

/-- The spectral-analysis pass of `mixCallback` (window.c lines 171-178):
the contents of `_hauteurs` after the loop
`for(i = 0; i < FREQUENCES; i++) _hauteurs[i] = (int)(sqrt(...) * exp(...));`. -/
noncomputable def analyze (samples : List ℝ) : List ℤ :=
  (List.range FREQUENCES).map fun i => toSint16 (truncToInt (binValue samples i))

lemma truncToInt_of_nonneg {x : ℝ} (hx : 0 ≤ x) : truncToInt x = ⌊x⌋ := if_pos hx

lemma toSint16_eq_self {z : ℤ} (h1 : -32768 ≤ z) (h2 : z < 32768) : toSint16 z = z := by
  unfold toSint16
  omega

lemma analyze_length (s : List ℝ) : (analyze s).length = FREQUENCES := by
  simp [analyze]

lemma analyze_getD (s : List ℝ) {i : ℕ} (hi : i < FREQUENCES) :
    (analyze s).getD i 0 = toSint16 (truncToInt (binValue s i)) := by
  unfold analyze
  rw [List.getD_eq_getElem?_getD, List.getElem?_map, List.getElem?_range hi]
  rfl

lemma toComplexInput_replicate (c : ℝ) (n : Fin ECHANTILLONS) :
    toComplexInput (List.replicate ECHANTILLONS c) n = (c : ℂ) := by
  unfold toComplexInput
  rw [List.getD_eq_getElem?_getD, List.getElem?_replicate, if_pos n.isLt]
  rfl

lemma dft_apply_zero (x : Fin ECHANTILLONS → ℂ) :
    dft x 0 = ∑ n : Fin ECHANTILLONS, x n := by
  unfold dft
  refine Finset.sum_congr rfl fun n _ => ?_
  norm_num

lemma dft_toComplexInput_zeros (k : ℕ) :
    dft (toComplexInput (List.replicate ECHANTILLONS (0 : ℝ))) k = 0 := by
  unfold dft
  refine Finset.sum_eq_zero fun n _ => ?_
  rw [toComplexInput_replicate]
  simp

lemma binValue_zeros (i : ℕ) : binValue (List.replicate ECHANTILLONS (0 : ℝ)) i = 0 := by
  unfold binValue
  rw [dft_toComplexInput_zeros]
  simp

/-- Claim C8: on the all-zero sample window the analysis pass fills all
`FREQUENCES` bins with `0`. -/
theorem analyze_zeros_eq_zero_bins :
    analyze (List.replicate ECHANTILLONS (0 : ℝ)) = List.replicate FREQUENCES 0 := by
  unfold analyze
  refine List.eq_replicate_iff.2 ⟨by simp, ?_⟩
  intro b hb
  obtain ⟨i, _, rfl⟩ := List.mem_map.1 hb
  rw [binValue_zeros, show truncToInt (0 : ℝ) = 0 from by simp [truncToInt]]
  decide

lemma abs_toComplexInput_le (s : List ℝ) (hb : ∀ x ∈ s, |x| ≤ 1) (n : Fin ECHANTILLONS) :
    Complex.abs (toComplexInput s n) ≤ 1 := by
  unfold toComplexInput
  rw [Complex.abs_ofReal]
  by_cases h : (n : ℕ) < s.length
  · rw [List.getD_eq_getElem?_getD, List.getElem?_eq_getElem h]
    exact hb _ (List.getElem_mem h)
  · rw [List.getD_eq_getElem?_getD, List.getElem?_eq_none (by omega)]
    simp

lemma abs_dft_le (x : Fin ECHANTILLONS → ℂ) (hb : ∀ n, Complex.abs (x n) ≤ 1) (k : ℕ) :
    Complex.abs (dft x k) ≤ (ECHANTILLONS : ℝ) := by
  have h2 : ∀ n : Fin ECHANTILLONS,
      Complex.abs (x n *
        Complex.exp (((-2 * Real.pi * k * n / ECHANTILLONS : ℝ) : ℂ) * Complex.I)) ≤ 1 := by
    intro n
    rw [map_mul, Complex.abs_exp_ofReal_mul_I, mul_one]
    exact hb n
  have hsum : (∑ _n : Fin ECHANTILLONS, (1 : ℝ)) = (ECHANTILLONS : ℝ) := by
    rw [Finset.sum_const, Finset.card_univ, Fintype.card_fin, nsmul_eq_mul, mul_one]
  unfold dft
  refine le_trans (Complex.abs.sum_le _ _)
    (le_trans (Finset.sum_le_sum fun n _ => h2 n) (le_of_eq hsum))

lemma sqrt_normSq_eq_abs (z : ℂ) :
    Real.sqrt (z.re * z.re + z.im * z.im) = Complex.abs z := by
  rw [Complex.abs_apply, Complex.normSq_apply]

lemma binValue_nonneg (s : List ℝ) (i : ℕ) : 0 ≤ binValue s i := by
  unfold binValue
  positivity

lemma binValue_lt (s : List ℝ) (hb : ∀ x ∈ s, |x| ≤ 1) {i : ℕ} (hi : i < FREQUENCES) :
    binValue s i < 32768 := by
  unfold binValue
  rw [sqrt_normSq_eq_abs]
  have hA : Complex.abs (dft (toComplexInput s) i) ≤ (ECHANTILLONS : ℝ) :=
    abs_dft_le _ (fun n => abs_toComplexInput_le s hb n) i
  have hFpos : (0 : ℝ) < (FREQUENCES : ℝ) := by
    rw [FREQUENCES_eq]
    norm_num
  have harg : 2 * (i : ℝ) / (FREQUENCES : ℝ) < 2 := by
    rw [div_lt_iff₀ hFpos]
    have hiF : (i : ℝ) < (FREQUENCES : ℝ) := by exact_mod_cast hi
    nlinarith
  have hexp2 : Real.exp 2 = Real.exp 1 * Real.exp 1 := by
    rw [← Real.exp_add]
    norm_num
  have he : Real.exp 2 < 8 := by
    have h1 : Real.exp 1 < 2.7182818286 := Real.exp_one_lt_d9
    have h0 : (0 : ℝ) < Real.exp 1 := Real.exp_pos 1
    nlinarith
  have hF : Real.exp (2 * i / (FREQUENCES : ℝ)) < 8 :=
    lt_trans (Real.exp_lt_exp.2 harg) he
  have hFpos' : 0 < Real.exp (2 * i / (FREQUENCES : ℝ)) := Real.exp_pos _
  have hE : (ECHANTILLONS : ℝ) = 4096 := by norm_num [ECHANTILLONS]
  calc Complex.abs (dft (toComplexInput s) i) * Real.exp (2 * i / (FREQUENCES : ℝ))
      ≤ (ECHANTILLONS : ℝ) * Real.exp (2 * i / (FREQUENCES : ℝ)) :=
        mul_le_mul_of_nonneg_right hA (le_of_lt hFpos')
    _ < (ECHANTILLONS : ℝ) * 8 := by
        rw [hE]
        exact mul_lt_mul_of_pos_left hF (by norm_num)
    _ ≤ 32768 := by
        rw [hE]
        norm_num

lemma dft_replicate_ten :
    dft (toComplexInput (List.replicate ECHANTILLONS (10 : ℝ))) 0 = ((40960 : ℝ) : ℂ) := by
  rw [dft_apply_zero]
  rw [Finset.sum_congr rfl fun n _ => toComplexInput_replicate 10 n]
  rw [Finset.sum_const, Finset.card_univ, Fintype.card_fin, nsmul_eq_mul]
  norm_num [ECHANTILLONS]

lemma binValue_ten_zero :
    binValue (List.replicate ECHANTILLONS (10 : ℝ)) 0 = 40960 := by
  unfold binValue
  rw [dft_replicate_ten, Complex.ofReal_re, Complex.ofReal_im]
  have h1 : (40960 : ℝ) * 40960 + 0 * 0 = 40960 ^ 2 := by ring
  rw [h1, Real.sqrt_sq (by norm_num : (0 : ℝ) ≤ 40960)]
  norm_num [Real.exp_zero]

lemma truncToInt_40960 : truncToInt (40960 : ℝ) = 40960 := by
  rw [truncToInt_of_nonneg (by norm_num)]
  have h : ((40960 : ℤ) : ℝ) = (40960 : ℝ) := by norm_num
  rw [← h, Int.floor_intCast]

/-- Claim C3, counterexample: on the window whose 4096 samples all equal 10
the bin-0 value is `sqrt(40960²)·exp(0) = 40960`, and storing the truncation
40960 into the `Sint16` array `_hauteurs` wraps to -24576, so bin 0 does not
equal the claimed truncation. -/
theorem analyze_formula_counterexample :
    (analyze (List.replicate ECHANTILLONS (10 : ℝ))).getD 0 0 ≠
      truncToInt (Real.sqrt
          ((dft (toComplexInput (List.replicate ECHANTILLONS (10 : ℝ))) 0).re *
              (dft (toComplexInput (List.replicate ECHANTILLONS (10 : ℝ))) 0).re
            + (dft (toComplexInput (List.replicate ECHANTILLONS (10 : ℝ))) 0).im *
              (dft (toComplexInput (List.replicate ECHANTILLONS (10 : ℝ))) 0).im)
        * Real.exp (2 * (0 : ℕ) / (FREQUENCES : ℝ))) := by
  have h0 : (0 : ℕ) < FREQUENCES := by
    rw [FREQUENCES_eq]
    norm_num
  rw [analyze_getD _ h0]
  have hRHS : truncToInt (Real.sqrt
          ((dft (toComplexInput (List.replicate ECHANTILLONS (10 : ℝ))) 0).re *
              (dft (toComplexInput (List.replicate ECHANTILLONS (10 : ℝ))) 0).re
            + (dft (toComplexInput (List.replicate ECHANTILLONS (10 : ℝ))) 0).im *
              (dft (toComplexInput (List.replicate ECHANTILLONS (10 : ℝ))) 0).im)
        * Real.exp (2 * (0 : ℕ) / (FREQUENCES : ℝ))) =
      truncToInt (binValue (List.replicate ECHANTILLONS (10 : ℝ)) 0) := rfl
  rw [hRHS, binValue_ten_zero, truncToInt_40960]
  decide

/-- Claim C3, amended: when every sample of the window has absolute value at
most 1 the computed bin value lies in `[0, 32768)`, the 16-bit store does not
wrap, and bin `i` equals the integer truncation of
`sqrt(re²+im²)·exp(2i/FREQUENCES)` of the `i`-th forward-DFT output of the
window (imaginary input parts zero), exactly as the spec states. -/
theorem analyze_formula_of_bounded (s : List ℝ) (hb : ∀ x ∈ s, |x| ≤ 1)
    {i : ℕ} (hi : i < FREQUENCES) :
    (analyze s).getD i 0 =
      truncToInt (Real.sqrt
          ((dft (toComplexInput s) i).re * (dft (toComplexInput s) i).re
            + (dft (toComplexInput s) i).im * (dft (toComplexInput s) i).im)
        * Real.exp (2 * i / (FREQUENCES : ℝ))) := by
  rw [analyze_getD _ hi]
  show toSint16 (truncToInt (binValue s i)) = truncToInt (binValue s i)
  have h0 : 0 ≤ binValue s i := binValue_nonneg s i
  have hlt : binValue s i < 32768 := binValue_lt s hb hi
  rw [truncToInt_of_nonneg h0]
  have hfl : (0 : ℤ) ≤ ⌊binValue s i⌋ := Int.floor_nonneg.2 h0
  have hfu : ⌊binValue s i⌋ < 32768 := Int.floor_lt.2 (by exact_mod_cast hlt)
  exact toSint16_eq_self (by omega) hfu

/-- Closed instance of `analyze_formula_of_bounded` on the all-zero window at
bin 0. -/
theorem analyze_formula_of_bounded_witness :
    (∀ x ∈ List.replicate ECHANTILLONS (0 : ℝ), |x| ≤ 1) ∧ (0 : ℕ) < FREQUENCES ∧
      (analyze (List.replicate ECHANTILLONS (0 : ℝ))).getD 0 0 =
        truncToInt (Real.sqrt
            ((dft (toComplexInput (List.replicate ECHANTILLONS (0 : ℝ))) 0).re *
                (dft (toComplexInput (List.replicate ECHANTILLONS (0 : ℝ))) 0).re
              + (dft (toComplexInput (List.replicate ECHANTILLONS (0 : ℝ))) 0).im *
                (dft (toComplexInput (List.replicate ECHANTILLONS (0 : ℝ))) 0).im)
          * Real.exp (2 * (0 : ℕ) / (FREQUENCES : ℝ))) :=
  ⟨by simp, by rw [FREQUENCES_eq]; norm_num,
    analyze_formula_of_bounded _ (by simp) (by rw [FREQUENCES_eq]; norm_num)⟩

/-- Claim C7, counterexample: on the window whose samples all equal 10, bin 0
wraps to -24576 < 0, so the bins are not all non-negative. -/
theorem bins_nonneg_counterexample :
    ¬ ((analyze (List.replicate ECHANTILLONS (10 : ℝ))).length = FREQUENCES ∧
        ∀ h ∈ analyze (List.replicate ECHANTILLONS (10 : ℝ)), 0 ≤ h) := by
  rintro ⟨-, hall⟩
  have h0 : (0 : ℕ) ∈ List.range FREQUENCES := List.mem_range.2 (by rw [FREQUENCES_eq]; norm_num)
  have hm : toSint16 (truncToInt (binValue (List.replicate ECHANTILLONS (10 : ℝ)) 0)) ∈
      analyze (List.replicate ECHANTILLONS (10 : ℝ)) := by
    unfold analyze
    exact List.mem_map_of_mem _ h0
  have hge := hall _ hm
  rw [binValue_ten_zero, truncToInt_40960] at hge
  revert hge
  decide

/-- Claim C7, amended: each analysis pass produces exactly `FREQUENCES` bins,
and when every sample of the window has absolute value at most 1 every bin is
non-negative (without that bound the 16-bit store can wrap to a negative
value). -/
theorem bins_length_and_nonneg_of_bounded (s : List ℝ) (hb : ∀ x ∈ s, |x| ≤ 1) :
    (analyze s).length = FREQUENCES ∧ ∀ h ∈ analyze s, 0 ≤ h := by
  refine ⟨analyze_length s, ?_⟩
  intro h hm
  unfold analyze at hm
  obtain ⟨i, hi, rfl⟩ := List.mem_map.1 hm
  have hi' : i < FREQUENCES := List.mem_range.1 hi
  have h0 : 0 ≤ binValue s i := binValue_nonneg s i
  have hlt : binValue s i < 32768 := binValue_lt s hb hi'
  rw [truncToInt_of_nonneg h0]
  have hfl : (0 : ℤ) ≤ ⌊binValue s i⌋ := Int.floor_nonneg.2 h0
  have hfu : ⌊binValue s i⌋ < 32768 := Int.floor_lt.2 (by exact_mod_cast hlt)
  rw [toSint16_eq_self (by omega) hfu]
  exact hfl

/-- Closed instance of `bins_length_and_nonneg_of_bounded` on the all-zero
window. -/
theorem bins_length_and_nonneg_of_bounded_witness :
    (∀ x ∈ List.replicate ECHANTILLONS (0 : ℝ), |x| ≤ 1) ∧
      ((analyze (List.replicate ECHANTILLONS (0 : ℝ))).length = FREQUENCES ∧
        ∀ h ∈ analyze (List.replicate ECHANTILLONS (0 : ℝ)), 0 ≤ h) :=
  ⟨by simp, bins_length_and_nonneg_of_bounded _ (by simp)⟩

/-- The global state read and written by `mixCallback`: the rolling sample
window `_samples` (line 35), the frequency bins `_hauteurs` (line 37), and
whether the fftw plan `_plan4fftw` (line 49) is non-null. -/
structure MixState where
  samples : List ℝ
  hauteurs : List ℤ
  plan4fftw : Bool

/-- The jack process callback `mixCallback` (window.c lines 150-182).  The
whole body is guarded by `if(_plan4fftw) { ... }`; inside the guard the
incoming block is ingested into `_samples`, the updated window is staged into
`_in4fftw`, the DFT is executed and all `FREQUENCES` bins of `_hauteurs` are
rewritten.  `return 0;` sits after the guard, so the callback returns 0 in
both cases.  The block `buffer` stands for the `nframes` samples returned by
`jack_port_get_buffer`. -/
noncomputable def mixCallback (s : MixState) (buffer : List ℝ) : MixState × ℤ :=
  if s.plan4fftw then
    ({ samples := ingest s.samples buffer,
       hauteurs := analyze (ingest s.samples buffer),
       plan4fftw := s.plan4fftw }, 0)
  else (s, 0)

/-- Claim C10: with a null fftw plan the callback leaves the whole state
unchanged and returns 0, for every block and every prior state. -/
theorem mixCallback_no_plan (s : MixState) (buffer : List ℝ)
    (h : s.plan4fftw = false) :
    mixCallback s buffer = (s, 0) := by
  simp [mixCallback, h]

/-- Closed instance of `mixCallback_no_plan`. -/
theorem mixCallback_no_plan_witness :
    (MixState.mk [] [] false).plan4fftw = false ∧
      mixCallback (MixState.mk [] [] false) [1] = (MixState.mk [] [] false, 0) :=
  ⟨rfl, mixCallback_no_plan _ _ rfl⟩

/-- Claim C4, counterexample: with a null fftw plan the callback does NOT
ingest the incoming frames (the guard `if(_plan4fftw)` encloses the
ingestion loops as well, not just the analysis): after a 1-frame block `[1]`
the window is still all zeros, while ingestion would have put `1` at the
end. -/
theorem callback_always_ingests_counterexample :
    (mixCallback
        (MixState.mk (List.replicate ECHANTILLONS (0 : ℝ)) (List.replicate FREQUENCES 0) false)
        [1]).1.samples ≠
      ingest (List.replicate ECHANTILLONS (0 : ℝ)) [1] := by
  intro hEq
  have hL : (mixCallback
      (MixState.mk (List.replicate ECHANTILLONS (0 : ℝ)) (List.replicate FREQUENCES 0) false)
      [1]).1.samples = List.replicate ECHANTILLONS (0 : ℝ) := by
    simp [mixCallback]
  have hR : ingest (List.replicate ECHANTILLONS (0 : ℝ)) [1] =
      (List.replicate ECHANTILLONS (0 : ℝ)).drop 1 ++ [1] := by
    rw [ingest, if_neg (by simp [ECHANTILLONS]), List.length_singleton]
  rw [hL, hR, List.drop_replicate] at hEq
  have hrep : (List.replicate ECHANTILLONS (0 : ℝ)).getLast? = some 0 := by
    have hE : ECHANTILLONS = 4095 + 1 := by norm_num [ECHANTILLONS]
    rw [hE, List.replicate_succ', List.getLast?_concat]
  have hlast := congrArg List.getLast? hEq
  rw [List.getLast?_concat, hrep] at hlast
  exact absurd (Option.some.inj hlast) (by norm_num)

/-- Claim C4, amended: the callback always returns 0 (it never fails); when
the fftw plan is initialized it ingests the block and rewrites the bins from
the updated window, and when the plan is null it skips the whole processing
— ingestion included, not only the analysis — leaving both arrays
unchanged. -/
theorem callback_plan_gates_processing (s : MixState) (buffer : List ℝ) :
    (mixCallback s buffer).2 = 0 ∧
      (mixCallback s buffer).1.samples =
        (if s.plan4fftw then ingest s.samples buffer else s.samples) ∧
      (mixCallback s buffer).1.hauteurs =
        (if s.plan4fftw then analyze (ingest s.samples buffer) else s.hauteurs) := by
  by_cases h : s.plan4fftw <;> simp [mixCallback, h]

/-- `static int _wW = 1280, _wH = 512;` (window.c line 39): the window
height used by `draw`. -/
def _wH : ℤ := 512

/-- The clamp applied by `draw` to a computed vertical position, in both the
waveform and the spectrum branch (window.c lines 107-108 and 119-120):
`if(y0 > _wH) y0 = _wH - 1; if(y0 < 0) y0 = 0;`. -/
def clampY (y0 : ℤ) : ℤ :=
  let y1 := if y0 > _wH then _wH - 1 else y0
  if y1 < 0 then 0 else y1

/-- The vertical pixel position computed for one waveform sample in `draw`
(window.c line 105): `int y0 = (_samples[i] * _wH + _wH) / 2;` (float
arithmetic, truncated by the assignment to `int`), followed by the clamp. -/
noncomputable def waveformY (sample : ℝ) : ℤ :=
  clampY (truncToInt ((sample * (_wH : ℝ) + (_wH : ℝ)) / 2))

/-- Claim C5, evaluation at the failing input: a waveform sample of +1.0
gives `y0 = (1·512 + 512)/2 = 512`; the clamp `if(y0 > _wH)` does not fire
at `y0 = _wH`, so the final vertical position equals the window height 512 —
it is NOT in `[0, _wH - 1]` as claimed. -/
theorem waveformY_at_one : waveformY 1 = _wH := by
  unfold waveformY
  have h1 : ((1 : ℝ) * (_wH : ℝ) + (_wH : ℝ)) / 2 = 512 := by
    norm_num [_wH]
  rw [h1]
  have h2 : truncToInt (512 : ℝ) = 512 := by
    rw [truncToInt_of_nonneg (by norm_num)]
    have h : ((512 : ℤ) : ℝ) = (512 : ℝ) := by norm_num
    rw [← h, Int.floor_intCast]
  rw [h2]
  decide
